import Mathlib

/-!
Shallow embedding of the TestLlama server (Express + PostgreSQL, final revision
of the service file) used to check the specification's claims about the
test-run lifecycle, project deletion and attachment deletion endpoints.

The relational store is modelled as explicit lists of rows; SQL statements are
translated into list operations; timestamps are natural numbers passed in as
the request's "now"; the uploads directory is a list of file names; the
`randomUUID` supply is a function `Nat → String` consumed left to right.
-/

namespace TestLlama

/-- An attachment record as produced by the server (all fields present),
mirroring the shape pushed into `copiedAttachments` and stored as JSON. -/
structure Attachment where
  id : String
  filename : String
  mimeType : String
  url : String
deriving Repr, DecidableEq

/-- A raw attachment as parsed from a test-case step's JSON `attachments`
column: every field is optional, mirroring
`Array<{ id?: string; filename?: string; mimeType?: string; url?: string; dataUrl?: string }>`. -/
structure RawAttachment where
  id : Option String
  filename : Option String
  mimeType : Option String
  url : Option String
deriving Repr, DecidableEq

/-- A row of the `projects` table. -/
structure ProjectRow where
  id : Nat
  name : String
deriving Repr, DecidableEq

/-- A row of the `test_cases` table (`project_id` is NOT NULL,
REFERENCES projects ON DELETE RESTRICT). -/
structure TestCaseRow where
  id : Nat
  name : String
  projectId : Nat
deriving Repr, DecidableEq

/-- A row of the `test_case_steps` table; the TEXT `attachments` column is
modelled already parsed into its JSON array of raw attachments. -/
structure TestCaseStepRow where
  id : Nat
  testCaseId : Nat
  position : Nat
  stepDescription : String
  expectedResults : String
  attachments : List RawAttachment
deriving Repr, DecidableEq

/-- A row of the `test_runs` table. -/
structure TestRunRow where
  id : Nat
  name : String
  status : String
  projectId : Option Nat
  sourceTestCaseId : Option Nat
  sourceTestCaseName : String
  createdAt : Nat
  updatedAt : Nat
deriving Repr, DecidableEq

/-- A row of the `test_run_steps` table; the two TEXT JSON columns are
modelled parsed (the `''` the server inserts parses to `[]`). -/
structure TestRunStepRow where
  id : Nat
  testRunId : Nat
  position : Nat
  stepDescription : String
  expectedResults : String
  attachments : List Attachment
  actualResults : String
  actualResultAttachments : List Attachment
  checked : Bool
  stepStatus : String
deriving Repr, DecidableEq

/-- The persistent state reachable by the endpoints under study: the tables
plus the uploads directory (list of file names) and the next SERIAL values
for `test_runs` and `test_run_steps`. -/
structure Db where
  projects : List ProjectRow
  testCases : List TestCaseRow
  testCaseSteps : List TestCaseStepRow
  runs : List TestRunRow
  runSteps : List TestRunStepRow
  files : List String
  nextRunId : Nat
  nextRunStepId : Nat
deriving Repr, DecidableEq

/-- `const LOCKED_STATUSES = new Set(['passed', 'failed'])`. -/
def LOCKED_STATUSES : List String := ["passed", "failed"]

/-- `LOCKED_STATUSES.has(status)`. -/
def isLockedStatus (s : String) : Bool := LOCKED_STATUSES.contains s

/-- `const validStatuses = ['ready_to_test', 'in_progress', 'passed', 'failed', 'na']`
(final revision of the PUT handler). -/
def validStatuses : List String := ["ready_to_test", "in_progress", "passed", "failed", "na"]

/-- `const NAME_MAX_LENGTH = 50`. -/
def NAME_MAX_LENGTH : Nat := 50

/-- One element of the `steps` array of a PUT body.  `id = none` models a
value whose `typeof step.id !== 'number'`; each optional field absent models
the corresponding JSON field being absent (`?? null` in the handler). -/
structure StepPatch where
  id : Option Int
  actualResults : Option String
  actualResultAttachments : Option (List Attachment)
  checked : Option Bool
  stepStatus : Option String
deriving Repr, DecidableEq

/-- Body of `PUT /service/test-runs/:id`.  `status = none` models an absent or
null status; `steps = none` models `steps` absent, null, or not an array. -/
structure UpdateRunBody where
  status : Option String
  steps : Option (List StepPatch)
deriving Repr, DecidableEq

/-- `steps != null && Array.isArray(steps) && steps.length > 0`. -/
def stepsNonEmpty : Option (List StepPatch) → Bool
  | some (_ :: _) => true
  | _ => false

/-- `status != null && !validStatuses.includes(status)` (the rejected case). -/
def statusInvalid : Option String → Bool
  | some s => !(validStatuses.contains s)
  | none => false

/-- The per-row effect of the SQL UPDATE on `test_runs`: set `status` when one
was supplied, and always set `updated_at = NOW()`. -/
def updateRunRow (status? : Option String) (now : Nat) (r : TestRunRow) : TestRunRow :=
  { r with status := status?.getD r.status, updatedAt := now }

/-- The per-field COALESCE merge of one step patch onto one step row:
a supplied value overrides, an omitted value keeps the existing one. -/
def applyStepPatch (p : StepPatch) (row : TestRunStepRow) : TestRunStepRow :=
  { row with
    actualResults := p.actualResults.getD row.actualResults
    actualResultAttachments := p.actualResultAttachments.getD row.actualResultAttachments
    checked := p.checked.getD row.checked
    stepStatus := p.stepStatus.getD row.stepStatus }

/-- One iteration of the step-patch loop: skip a non-numeric id
(`typeof step.id !== 'number'` → `continue`), otherwise run the UPDATE whose
WHERE clause is `id = $5 AND test_run_id = $6`. -/
def applyOnePatch (runId : Nat) (steps : List TestRunStepRow) (p : StepPatch) :
    List TestRunStepRow :=
  match p.id with
  | none => steps
  | some pid =>
    steps.map fun row =>
      if (Int.ofNat row.id == pid) && (row.testRunId == runId) then applyStepPatch p row else row

/-- The whole `for (const step of steps)` loop. -/
def applyPatches (runId : Nat) (ps : List StepPatch) (steps : List TestRunStepRow) :
    List TestRunStepRow :=
  ps.foldl (applyOnePatch runId) steps

/-- Insert into a list kept ordered by the `position` projection. -/
def insertByPos {α : Type} (pos : α → Nat) (s : α) : List α → List α
  | [] => [s]
  | t :: ts => if pos s ≤ pos t then s :: t :: ts else t :: insertByPos pos s ts

/-- `ORDER BY position ASC`, as a stable insertion sort. -/
def sortByPos {α : Type} (pos : α → Nat) : List α → List α
  | [] => []
  | s :: ss => insertByPos pos s (sortByPos pos ss)

/-- Outcome of `PUT /service/test-runs/:id`. -/
inductive UpdateRunResult where
  | notFound
  | lockedConflict (currentStatus : String)
  | invalidStatus
  | success (run : TestRunRow) (steps : List TestRunStepRow)
deriving Repr, DecidableEq

/-- The HTTP status code each outcome of the PUT handler is sent with. -/
def UpdateRunResult.httpCode : UpdateRunResult → Nat
  | .notFound => 404
  | .lockedConflict _ => 409
  | .invalidStatus => 400
  | .success _ _ => 200

/-- `PUT /service/test-runs/:id` (final revision): look the run up, compute
`isLocked` from the status before the update, reject a non-empty step-patch
list on a locked run with 409, validate the status value, apply the status
change and/or refresh `updated_at`, apply the step patches when the run was
not locked, then reload and return the run with its steps ordered by
position. -/
def updateTestRun (db : Db) (id : Nat) (body : UpdateRunBody) (now : Nat) :
    UpdateRunResult × Db :=
  match db.runs.find? (fun r => r.id == id) with
  | none => (.notFound, db)
  | some existing =>
    if isLockedStatus existing.status && stepsNonEmpty body.steps then
      (.lockedConflict existing.status, db)
    else if statusInvalid body.status then
      (.invalidStatus, db)
    else
      let runs' := db.runs.map fun r =>
        if r.id == id then updateRunRow body.status now r else r
      let steps' :=
        if !(isLockedStatus existing.status) then
          match body.steps with
          | some ps => applyPatches id ps db.runSteps
          | none => db.runSteps
        else db.runSteps
      let db' := { db with runs := runs', runSteps := steps' }
      match db'.runs.find? (fun r => r.id == id) with
      | some run' =>
        (.success run' (sortByPos (fun s => s.position)
          (db'.runSteps.filter (fun s => s.testRunId == id))), db')
      | none => (.notFound, db')

/-- Witness fixtures: one project, one test case, one locked run with one step. -/
def wRun : TestRunRow :=
  { id := 1, name := "Run1", status := "passed", projectId := some 1,
    sourceTestCaseId := some 1, sourceTestCaseName := "Login",
    createdAt := 0, updatedAt := 0 }

def wStep : TestRunStepRow :=
  { id := 1, testRunId := 1, position := 1, stepDescription := "enter creds",
    expectedResults := "dashboard shown", attachments := [], actualResults := "",
    actualResultAttachments := [], checked := false, stepStatus := "not_run" }

def wDb : Db :=
  { projects := [{ id := 1, name := "P1" }]
    testCases := [{ id := 1, name := "Login", projectId := 1 }]
    testCaseSteps := []
    runs := [wRun]
    runSteps := [wStep]
    files := []
    nextRunId := 2
    nextRunStepId := 2 }

def wPatch : StepPatch :=
  { id := some 1, actualResults := none, actualResultAttachments := none,
    checked := some true, stepStatus := none }

/-- Fixture for the project-deletion claim: P1 owns a test case, P2 owns none. -/
def w9Db : Db :=
  { wDb with projects := [{ id := 1, name := "P1" }, { id := 2, name := "P2" }] }

/-- Fixture for the attachment-deletion claim: two stored files. -/
def wFilesDb : Db :=
  { wDb with files := ["aa.png", "bb.jpg"] }

/-- Fixture for the attachment-copy claim: one step with one attachment whose
backing file exists and one whose backing file is missing. -/
def c5Db : Db :=
  { projects := [{ id := 1, name := "P1" }]
    testCases := [{ id := 1, name := "Login", projectId := 1 }]
    testCaseSteps :=
      [{ id := 1, testCaseId := 1, position := 1, stepDescription := "s1",
         expectedResults := "e1",
         attachments :=
           [{ id := some "a1", filename := some "shot.png",
              mimeType := some "image/png", url := some "/service/uploads/a1.png" },
            { id := some "a2", filename := some "gone.jpg",
              mimeType := some "image/jpeg", url := some "/service/uploads/a2.jpg" }] }]
    runs := []
    runSteps := []
    files := ["a1.png"]
    nextRunId := 1
    nextRunStepId := 1 }

/-- Fixture for the creation-atomicity claim: a test case with two steps and
no runs yet. -/
def c8Db : Db :=
  { projects := [{ id := 1, name := "P1" }]
    testCases := [{ id := 1, name := "Login", projectId := 1 }]
    testCaseSteps :=
      [{ id := 1, testCaseId := 1, position := 1, stepDescription := "s1",
         expectedResults := "e1", attachments := [] },
       { id := 2, testCaseId := 1, position := 2, stepDescription := "s2",
         expectedResults := "e2", attachments := [] }]
    runs := []
    runSteps := []
    files := []
    nextRunId := 1
    nextRunStepId := 1 }

/-- JavaScript `String.prototype.trim`: strip leading and trailing
whitespace. -/
def jsTrim (s : String) : String :=
  ⟨((s.data.dropWhile Char.isWhitespace).reverse.dropWhile Char.isWhitespace).reverse⟩

/-- JavaScript `String.prototype.endsWith`. -/
def strEndsWith (s suf : String) : Bool :=
  suf.data.isSuffixOf s.data

/-- `const ext = att.mimeType === 'image/png' ? '.png' : '.jpg'`. -/
def rawExt (att : RawAttachment) : String :=
  if att.mimeType = some "image/png" then ".png" else ".jpg"

/-- Result of the attachment deep-copy loop of run creation: the records pushed
into `copiedAttachments`, the uploads directory afterwards, and how many fresh
UUIDs were consumed. -/
structure CopyResult where
  copied : List Attachment
  files : List String
  nextUuid : Nat
deriving Repr, DecidableEq

/-- The `for (const att of originals)` loop of `POST /service/test-runs`:
skip a missing/empty id, skip a source whose backing file does not exist
(`fs.existsSync`), otherwise copy the file under a fresh UUID and record the
new attachment. -/
def copyStepAttachments (uuids : Nat → String) :
    List RawAttachment → Nat → List String → CopyResult
  | [], k, files => ⟨[], files, k⟩
  | att :: rest, k, files =>
    match att.id with
    | none => copyStepAttachments uuids rest k files
    | some aid =>
      if aid = "" then copyStepAttachments uuids rest k files
      else if (aid ++ rawExt att) ∈ files then
        let newId := uuids k
        let res := copyStepAttachments uuids rest (k + 1) (files ++ [newId ++ rawExt att])
        { res with copied :=
            { id := newId
              filename := att.filename.getD ""
              mimeType := att.mimeType.getD
                (if strEndsWith aid ".png" then "image/png" else "image/jpeg")
              url := "/service/uploads/" ++ newId ++ rawExt att } :: res.copied }
      else copyStepAttachments uuids rest k files

/-- Result of the step-copying loop of run creation. -/
structure InsertStepsResult where
  rows : List TestRunStepRow
  files : List String
  nextUuid : Nat
  failed : Bool
deriving Repr, DecidableEq

/-- The `for (const step of stepsResult.rows)` loop of `POST /service/test-runs`.
The handler runs each `INSERT INTO test_run_steps` as its own autocommitted
statement (there is no surrounding transaction), so a thrown insert aborts the
rest of the loop but keeps everything already persisted; `failAt = some i`
models the INSERT of the i-th copied step throwing (its attachment files have
already been copied when the INSERT runs). -/
def insertRunStepsF (uuids : Nat → String) (failAt : Option Nat) (runId : Nat) :
    List TestCaseStepRow → Nat → Nat → Nat → List String → InsertStepsResult
  | [], _idx, _nextId, k, files => ⟨[], files, k, false⟩
  | step :: rest, idx, nextId, k, files =>
    let c := copyStepAttachments uuids step.attachments k files
    if failAt = some idx then ⟨[], c.files, c.nextUuid, true⟩
    else
      let res := insertRunStepsF uuids failAt runId rest (idx + 1) (nextId + 1)
        c.nextUuid c.files
      { res with rows :=
          { id := nextId, testRunId := runId, position := step.position,
            stepDescription := step.stepDescription,
            expectedResults := step.expectedResults,
            attachments := c.copied, actualResults := "",
            actualResultAttachments := [],
            checked := false, stepStatus := "not_run" } :: res.rows }

/-- Body of `POST /service/test-runs`.  `name = none` models a missing or
non-string name; `testCaseId = none` models a missing id, an id of invalid
type, or one whose `parseInt` came out NaN. -/
structure CreateRunBody where
  name : Option String
  testCaseId : Option Int
deriving Repr, DecidableEq

/-- Outcome of `POST /service/test-runs`. -/
inductive CreateRunResult where
  | badName
  | badTestCaseId
  | tcNotFound
  | created (run : TestRunRow)
  | serverError
deriving Repr, DecidableEq

/-- The HTTP status code each outcome of the POST handler is sent with. -/
def CreateRunResult.httpCode : CreateRunResult → Nat
  | .badName => 400
  | .badTestCaseId => 400
  | .tcNotFound => 404
  | .created _ => 201
  | .serverError => 500

/-- `POST /service/test-runs` with the step-insert failure oracle `failAt`
(`none` = no persistence failure): validate the name (trimmed non-empty, at
most `NAME_MAX_LENGTH` characters) and the test-case id, look the case up,
insert the run row (`status := 'ready_to_test'`, source id and name copied
from the case), then copy every step of the case in position order. -/
def createTestRunF (uuids : Nat → String) (failAt : Option Nat) (db : Db)
    (body : CreateRunBody) (now : Nat) : CreateRunResult × Db :=
  match body.name with
  | none => (.badName, db)
  | some nm =>
    if jsTrim nm = "" then (.badName, db)
    else if (jsTrim nm).length > NAME_MAX_LENGTH then (.badName, db)
    else match body.testCaseId with
    | none => (.badTestCaseId, db)
    | some tcId =>
      if tcId < 1 then (.badTestCaseId, db)
      else match db.testCases.find? (fun tc => Int.ofNat tc.id == tcId) with
      | none => (.tcNotFound, db)
      | some tc =>
        let run : TestRunRow :=
          { id := db.nextRunId, name := jsTrim nm, status := "ready_to_test",
            projectId := some tc.projectId, sourceTestCaseId := some tc.id,
            sourceTestCaseName := tc.name, createdAt := now, updatedAt := now }
        let srcSteps := sortByPos (fun s => s.position)
          (db.testCaseSteps.filter (fun s => s.testCaseId == tc.id))
        let ins := insertRunStepsF uuids failAt run.id srcSteps 0 db.nextRunStepId 0 db.files
        let db' := { db with
          runs := db.runs ++ [run]
          runSteps := db.runSteps ++ ins.rows
          files := ins.files
          nextRunId := db.nextRunId + 1
          nextRunStepId := db.nextRunStepId + ins.rows.length }
        if ins.failed then (.serverError, db') else (.created run, db')

/-- `POST /service/test-runs` on the no-persistence-failure path. -/
def createTestRun (uuids : Nat → String) (db : Db) (body : CreateRunBody) (now : Nat) :
    CreateRunResult × Db :=
  createTestRunF uuids none db body now

/-- Outcome of `DELETE /service/projects/:id`. -/
inductive DeleteProjectResult where
  | notFound
  | conflict
  | deleted
deriving Repr, DecidableEq

/-- The HTTP status code each outcome of the project DELETE handler is sent
with (23503 foreign-key violations become 409). -/
def DeleteProjectResult.httpCode : DeleteProjectResult → Nat
  | .notFound => 404
  | .conflict => 409
  | .deleted => 204

/-- `DELETE /service/projects/:id`: `DELETE FROM projects WHERE id = $1`.
A missing row gives rowCount 0 → 404; a row still referenced by a
`test_cases.project_id` (ON DELETE RESTRICT) raises SQLSTATE 23503 → 409 with
nothing deleted; otherwise the row is removed and `test_runs.project_id`
(ON DELETE CASCADE) cascades, taking each cascaded run's steps with it. -/
def deleteProject (db : Db) (id : Nat) : DeleteProjectResult × Db :=
  match db.projects.find? (fun p => p.id == id) with
  | none => (.notFound, db)
  | some _ =>
    if db.testCases.any (fun tc => tc.projectId == id) then (.conflict, db)
    else
      let deadRuns := (db.runs.filter (fun r => r.projectId == some id)).map (fun r => r.id)
      (.deleted, { db with
        projects := db.projects.filter (fun p => !(p.id == id))
        runs := db.runs.filter (fun r => !(r.projectId == some id))
        runSteps := db.runSteps.filter (fun s => !(deadRuns.contains s.testRunId)) })

/-- Outcome of `DELETE /service/attachments/:id`. -/
inductive DeleteAttachmentResult where
  | invalidId
  | notFound
  | deleted (file : String)
deriving Repr, DecidableEq

/-- The HTTP status code each outcome of the attachment DELETE handler is sent
with (on the deleted path `fs.unlink` succeeded). -/
def DeleteAttachmentResult.httpCode : DeleteAttachmentResult → Nat
  | .invalidId => 400
  | .notFound => 404
  | .deleted _ => 204

/-- `id.includes(sub)`: substring test over the character lists. -/
def strContainsSub (s sub : String) : Bool :=
  (List.range (s.data.length + 1)).any (fun i => sub.data.isPrefixOf (s.data.drop i))

/-- `DELETE /service/attachments/:id`: reject an empty id or one containing
`/` or `..` before touching the filesystem; then try `<id>.png` and
`<id>.jpg` inside the uploads directory, 404 when neither exists, else unlink
the one found (`.png` first). -/
def deleteAttachment (db : Db) (id : String) : DeleteAttachmentResult × Db :=
  if id = "" || strContainsSub id "/" || strContainsSub id ".." then (.invalidId, db)
  else if (id ++ ".png") ∈ db.files then
    (.deleted (id ++ ".png"),
      { db with files := db.files.filter (fun f => !(f == id ++ ".png")) })
  else if (id ++ ".jpg") ∈ db.files then
    (.deleted (id ++ ".jpg"),
      { db with files := db.files.filter (fun f => !(f == id ++ ".jpg")) })
  else (.notFound, db)

/-- The ids of all attachments recorded on the steps of one test case — the
"source attachment ids" a freshly generated UUID must avoid. -/
def caseAttachmentIds (db : Db) (tcId : Nat) : List String :=
  (db.testCaseSteps.filter (fun s => s.testCaseId == tcId)).flatMap
    (fun s => s.attachments.filterMap (fun a => a.id))

/-- A source attachment that the copy loop will actually copy when the uploads
directory is `files`: it has a non-empty id and its backing file exists. -/
def srcFilePresentB (files : List String) (a : RawAttachment) : Bool :=
  match a.id with
  | some aid => !(aid == "") && decide ((aid ++ rawExt a) ∈ files)
  | none => false

theorem isLockedStatus_true_iff (s : String) :
    isLockedStatus s = true ↔ (s = "passed" ∨ s = "failed") := by
  simp [isLockedStatus, LOCKED_STATUSES, List.contains_cons, beq_iff_eq]

theorem find?_map_of_pred {α : Type} (f : α → α) (q : α → Bool)
    (h : ∀ x, q (f x) = q x) (l : List α) :
    (l.map f).find? q = (l.find? q).map f := by
  induction l with
  | nil => rfl
  | cons a t ih =>
    cases hq : q a with
    | true =>
      rw [List.map_cons, List.find?_cons_of_pos _ (by rw [h a]; exact hq),
        List.find?_cons_of_pos _ hq, Option.map_some']
    | false =>
      rw [List.map_cons, List.find?_cons_of_neg _ (by simp [h a, hq]),
        List.find?_cons_of_neg _ (by simp [hq]), ih]

theorem find?_runs_updated (l : List TestRunRow) (id : Nat) (st : Option String)
    (now : Nat) (r : TestRunRow)
    (h : l.find? (fun x => x.id == id) = some r) :
    (l.map fun x => if x.id == id then updateRunRow st now x else x).find?
      (fun x => x.id == id) = some (updateRunRow st now r) := by
  have hr : (r.id == id) = true := by
    have := List.find?_some h
    simpa using this
  have hq : ∀ x : TestRunRow,
      ((if x.id == id then updateRunRow st now x else x).id == id) = (x.id == id) := by
    intro x
    by_cases hx : (x.id == id) = true
    · rw [if_pos hx]; simp [updateRunRow]
    · rw [if_neg hx]
  rw [find?_map_of_pred _ _ hq, h, Option.map_some', if_pos hr]

/-- C1: a PUT on a run whose status is already `passed` or `failed` carrying a
non-empty steps array is rejected with 409 Conflict and the state — every
step field, the run's status and its `updatedAt` — is unchanged. -/
theorem C1_locked_run_step_update_rejected (db : Db) (id : Nat) (r : TestRunRow)
    (st : Option String) (ps : List StepPatch) (now : Nat)
    (hfind : db.runs.find? (fun x => x.id == id) = some r)
    (hlock : r.status = "passed" ∨ r.status = "failed")
    (hne : ps ≠ []) :
    updateTestRun db id { status := st, steps := some ps } now
      = (.lockedConflict r.status, db)
    ∧ UpdateRunResult.httpCode (.lockedConflict r.status) = 409 := by
  have hl : isLockedStatus r.status = true := (isLockedStatus_true_iff _).mpr hlock
  have hne' : stepsNonEmpty (some ps) = true := by
    cases ps with
    | nil => exact absurd rfl hne
    | cons a l => rfl
  refine ⟨?_, rfl⟩
  simp only [updateTestRun, hfind, hl, hne', Bool.and_self, if_pos]

theorem C1_locked_run_step_update_rejected_witness :
    updateTestRun wDb 1 { status := none, steps := some [wPatch] } 5
      = (.lockedConflict "passed", wDb)
    ∧ UpdateRunResult.httpCode (.lockedConflict "passed") = 409 :=
  C1_locked_run_step_update_rejected wDb 1 wRun none [wPatch] 5 rfl (Or.inl rfl)
    (by decide)

theorem isLockedStatus_false_iff (s : String) :
    isLockedStatus s = false ↔ (s ≠ "passed" ∧ s ≠ "failed") := by
  rw [← Bool.not_eq_true, isLockedStatus_true_iff]
  tauto

/-- How `PUT /service/test-runs/:id` computes on a status-only body. -/
theorem updateTestRun_status_only (db : Db) (id : Nat) (r : TestRunRow) (s : String)
    (now : Nat)
    (hfind : db.runs.find? (fun x => x.id == id) = some r)
    (hvs : statusInvalid (some s) = false) :
    updateTestRun db id { status := some s, steps := none } now
      = (.success (updateRunRow (some s) now r)
          (sortByPos (fun st => st.position)
            (db.runSteps.filter (fun st => st.testRunId == id))),
        { db with
            runs := db.runs.map fun x => if x.id == id then updateRunRow (some s) now x else x,
            runSteps := db.runSteps }) := by
  have hreload := find?_runs_updated db.runs id (some s) now r hfind
  simp only [updateTestRun, hfind, stepsNonEmpty, Bool.and_false, Bool.false_eq_true,
    if_false, hvs, ite_self, hreload]

/-- How `PUT /service/test-runs/:id` computes on an unlocked run when the body
carries a step-patch array. -/
theorem updateTestRun_unlocked (db : Db) (id : Nat) (r : TestRunRow) (st : Option String)
    (ps : List StepPatch) (now : Nat)
    (hfind : db.runs.find? (fun x => x.id == id) = some r)
    (hul : isLockedStatus r.status = false)
    (hvs : statusInvalid st = false) :
    updateTestRun db id { status := st, steps := some ps } now
      = (.success (updateRunRow st now r)
          (sortByPos (fun s2 => s2.position)
            ((applyPatches id ps db.runSteps).filter (fun s2 => s2.testRunId == id))),
        { db with
            runs := db.runs.map fun x => if x.id == id then updateRunRow st now x else x,
            runSteps := applyPatches id ps db.runSteps }) := by
  have hreload := find?_runs_updated db.runs id st now r hfind
  simp only [updateTestRun, hfind, hul, Bool.false_and, Bool.false_eq_true, if_false,
    hvs, Bool.not_false, if_true, hreload]

/-- C2: the steps-are-writable decision uses the pre-update status: on a run
that is not yet locked, one PUT carrying both a non-empty step-patch list and
a locking status (`passed`/`failed`) applies both the patches and the status
change, even though the run ends the request locked. -/
theorem C2_preupdate_status_gates_steps (db : Db) (id : Nat) (r : TestRunRow)
    (s : String) (ps : List StepPatch) (now : Nat)
    (hfind : db.runs.find? (fun x => x.id == id) = some r)
    (hunlocked : r.status ≠ "passed" ∧ r.status ≠ "failed")
    (hs : s = "passed" ∨ s = "failed") :
    ∃ run' steps' db',
      updateTestRun db id { status := some s, steps := some ps } now
        = (.success run' steps', db')
      ∧ run'.status = s
      ∧ isLockedStatus run'.status = true
      ∧ db'.runSteps = applyPatches id ps db.runSteps
      ∧ run'.updatedAt = now := by
  have hul : isLockedStatus r.status = false := (isLockedStatus_false_iff _).mpr hunlocked
  have hvs : statusInvalid (some s) = false := by
    rcases hs with h | h <;> subst h <;> decide
  have hreload := find?_runs_updated db.runs id (some s) now r hfind
  simp only [updateTestRun, hfind, hul, hvs, Bool.false_and, Bool.false_eq_true,
    if_false, Bool.not_false, if_true, hreload]
  exact ⟨_, _, _, rfl, rfl, (isLockedStatus_true_iff s).mpr hs, rfl, rfl⟩

theorem C2_preupdate_status_gates_steps_witness :
    ∃ run' steps' db',
      updateTestRun { wDb with runs := [{ wRun with status := "in_progress" }] } 1
          { status := some "passed", steps := some [wPatch] } 7
        = (.success run' steps', db')
      ∧ run'.status = "passed"
      ∧ isLockedStatus run'.status = true
      ∧ db'.runSteps = applyPatches 1 [wPatch]
          { wDb with runs := [{ wRun with status := "in_progress" }] }.runSteps
      ∧ run'.updatedAt = 7 :=
  C2_preupdate_status_gates_steps
    { wDb with runs := [{ wRun with status := "in_progress" }] } 1
    { wRun with status := "in_progress" } "passed" [wPatch] 7 rfl
    (by decide) (Or.inl rfl)

/-- C3: a locked run can always be unlocked: a PUT carrying only a status
change (to any valid status, including back out of the locked set) succeeds
with no conflict, and after moving back to `ready_to_test` a subsequent PUT
carrying step patches is applied. -/
theorem C3_locked_run_unlockable (db : Db) (id : Nat) (r : TestRunRow)
    (s : String) (ps : List StepPatch) (now1 now2 : Nat)
    (hfind : db.runs.find? (fun x => x.id == id) = some r)
    (_hlock : r.status = "passed" ∨ r.status = "failed")
    (hs : s ∈ validStatuses) :
    (∃ run1 steps1 db1,
      updateTestRun db id { status := some s, steps := none } now1
        = (.success run1 steps1, db1)
      ∧ run1.status = s ∧ db1.runSteps = db.runSteps)
    ∧ (∃ run1 steps1 db1 run2 steps2 db2,
      updateTestRun db id { status := some "ready_to_test", steps := none } now1
        = (.success run1 steps1, db1)
      ∧ isLockedStatus run1.status = false
      ∧ updateTestRun db1 id { status := none, steps := some ps } now2
        = (.success run2 steps2, db2)
      ∧ db2.runSteps = applyPatches id ps db.runSteps) := by
  have hvs : statusInvalid (some s) = false := by
    simp [statusInvalid]
    simpa using hs
  constructor
  · exact ⟨_, _, _, updateTestRun_status_only db id r s now1 hfind hvs, rfl, rfl⟩
  · exact ⟨_, _, _, _, _, _,
      updateTestRun_status_only db id r "ready_to_test" now1 hfind (by decide),
      by simp [updateRunRow, isLockedStatus, LOCKED_STATUSES],
      updateTestRun_unlocked _ id (updateRunRow (some "ready_to_test") now1 r)
        none ps now2 (find?_runs_updated db.runs id (some "ready_to_test") now1 r hfind)
        (by simp [updateRunRow, isLockedStatus, LOCKED_STATUSES]) rfl,
      rfl⟩

theorem C3_locked_run_unlockable_witness :
    ((∃ run1 steps1 db1,
      updateTestRun wDb 1 { status := some "na", steps := none } 3
        = (.success run1 steps1, db1)
      ∧ run1.status = "na" ∧ db1.runSteps = wDb.runSteps)
    ∧ (∃ run1 steps1 db1 run2 steps2 db2,
      updateTestRun wDb 1 { status := some "ready_to_test", steps := none } 3
        = (.success run1 steps1, db1)
      ∧ isLockedStatus run1.status = false
      ∧ updateTestRun db1 1 { status := none, steps := some [wPatch] } 4
        = (.success run2 steps2, db2)
      ∧ db2.runSteps = applyPatches 1 [wPatch] wDb.runSteps)) :=
  C3_locked_run_unlockable wDb 1 wRun "na" [wPatch] 3 4 rfl (Or.inl rfl) (by decide)

theorem updateTestRun_success_updatedAt (db : Db) (id : Nat) (body : UpdateRunBody)
    (now : Nat) (run' : TestRunRow) (steps' : List TestRunStepRow) (db' : Db)
    (h : updateTestRun db id body now = (.success run' steps', db')) :
    run'.updatedAt = now := by
  simp only [updateTestRun] at h
  split at h
  · simp at h
  · split at h
    · simp at h
    · split at h
      · simp at h
      · split at h
        · rename_i ru heq
          simp only [Prod.mk.injEq, UpdateRunResult.success.injEq] at h
          obtain ⟨⟨hru, -⟩, -⟩ := h
          subst hru
          have hpred : (ru.id == id) = true := by simpa using List.find?_some heq
          obtain ⟨x, hx, hfx⟩ := List.mem_map.mp (List.mem_of_find?_eq_some heq)
          by_cases hxid : (x.id == id) = true
          · rw [if_pos hxid] at hfx
            rw [← hfx]
            rfl
          · rw [if_neg hxid] at hfx
            rw [← hfx] at hpred
            exact absurd hpred hxid
        · simp at h

/-- C6: `{status: 'in_progress'}` alone is accepted, twice in a row leaves every
step row unchanged both times and refreshes `updatedAt` both times; and every
successful update sets the returned run's `updatedAt` to the request's time. -/
theorem C6_status_only_idempotent_on_steps (db : Db) (id : Nat) (r : TestRunRow)
    (now1 now2 : Nat)
    (hfind : db.runs.find? (fun x => x.id == id) = some r) :
    (∃ run1 steps1 db1 run2 steps2 db2,
      updateTestRun db id { status := some "in_progress", steps := none } now1
        = (.success run1 steps1, db1)
      ∧ db1.runSteps = db.runSteps ∧ run1.updatedAt = now1 ∧ run1.status = "in_progress"
      ∧ updateTestRun db1 id { status := some "in_progress", steps := none } now2
        = (.success run2 steps2, db2)
      ∧ db2.runSteps = db.runSteps ∧ run2.updatedAt = now2 ∧ run2.status = "in_progress")
    ∧ ∀ (db0 : Db) (id0 : Nat) (body0 : UpdateRunBody) (now0 : Nat)
        (run0 : TestRunRow) (steps0 : List TestRunStepRow) (db0' : Db),
        updateTestRun db0 id0 body0 now0 = (.success run0 steps0, db0')
        → run0.updatedAt = now0 := by
  constructor
  · exact ⟨_, _, _, _, _, _,
      updateTestRun_status_only db id r "in_progress" now1 hfind (by decide),
      rfl, rfl, rfl,
      updateTestRun_status_only _ id (updateRunRow (some "in_progress") now1 r)
        "in_progress" now2
        (find?_runs_updated db.runs id (some "in_progress") now1 r hfind) (by decide),
      rfl, rfl, rfl⟩
  · exact fun db0 id0 body0 now0 run0 steps0 db0' h =>
      updateTestRun_success_updatedAt db0 id0 body0 now0 run0 steps0 db0' h

theorem C6_status_only_idempotent_on_steps_witness :
    ((∃ run1 steps1 db1 run2 steps2 db2,
      updateTestRun wDb 1 { status := some "in_progress", steps := none } 11
        = (.success run1 steps1, db1)
      ∧ db1.runSteps = wDb.runSteps ∧ run1.updatedAt = 11 ∧ run1.status = "in_progress"
      ∧ updateTestRun db1 1 { status := some "in_progress", steps := none } 12
        = (.success run2 steps2, db2)
      ∧ db2.runSteps = wDb.runSteps ∧ run2.updatedAt = 12 ∧ run2.status = "in_progress")
    ∧ ∀ (db0 : Db) (id0 : Nat) (body0 : UpdateRunBody) (now0 : Nat)
        (run0 : TestRunRow) (steps0 : List TestRunStepRow) (db0' : Db),
        updateTestRun db0 id0 body0 now0 = (.success run0 steps0, db0')
        → run0.updatedAt = now0) :=
  C6_status_only_idempotent_on_steps wDb 1 wRun 11 12 rfl

theorem applyOnePatch_ids (runId : Nat) (s : List TestRunStepRow) (p : StepPatch) :
    (applyOnePatch runId s p).map (fun row => (row.id, row.testRunId))
      = s.map (fun row => (row.id, row.testRunId)) := by
  unfold applyOnePatch
  cases hp : p.id with
  | none => rfl
  | some pid =>
    rw [List.map_map]
    apply List.map_congr_left
    intro row _
    simp only [Function.comp]
    split <;> simp [applyStepPatch]

theorem applyPatches_ids (runId : Nat) (ps : List StepPatch) (s : List TestRunStepRow) :
    (applyPatches runId ps s).map (fun row => (row.id, row.testRunId))
      = s.map (fun row => (row.id, row.testRunId)) := by
  induction ps generalizing s with
  | nil => rfl
  | cons p ps ih =>
    show (applyPatches runId ps (applyOnePatch runId s p)).map _ = _
    rw [ih (applyOnePatch runId s p), applyOnePatch_ids]

theorem applyOnePatch_no_match (runId : Nat) (s : List TestRunStepRow) (p : StepPatch)
    (h : p.id = none ∨ ∃ pid, p.id = some pid ∧
        ∀ row ∈ s, ¬(Int.ofNat row.id = pid ∧ row.testRunId = runId)) :
    applyOnePatch runId s p = s := by
  unfold applyOnePatch
  rcases h with h | ⟨pid, hp, hnone⟩
  · rw [h]
  · rw [hp]
    have hrows : ∀ row ∈ s,
        (if (Int.ofNat row.id == pid) && (row.testRunId == runId) then
          applyStepPatch p row else row) = row := by
      intro row hrow
      rw [if_neg]
      intro hc
      rw [Bool.and_eq_true, beq_iff_eq, beq_iff_eq] at hc
      exact hnone row hrow hc
    calc s.map _ = s.map id := List.map_congr_left hrows
    _ = s := List.map_id s

theorem applyPatches_append (runId : Nat) (ps1 ps2 : List StepPatch)
    (s : List TestRunStepRow) :
    applyPatches runId (ps1 ++ ps2) s
      = applyPatches runId ps2 (applyPatches runId ps1 s) := by
  simp only [applyPatches, List.foldl_append]

/-- C7: in an unlocked update, a step patch whose id is not a number or does
not belong to any step row of the addressed run is silently ignored — the
request still succeeds, that patch changes nothing, and the remaining patches
are applied with the usual merge semantics. -/
theorem C7_stale_step_patch_ignored (db : Db) (id : Nat) (r : TestRunRow)
    (ps1 ps2 : List StepPatch) (p : StepPatch) (st : Option String) (now : Nat)
    (hfind : db.runs.find? (fun x => x.id == id) = some r)
    (hul : isLockedStatus r.status = false)
    (hvs : statusInvalid st = false)
    (hbad : p.id = none ∨ ∃ pid, p.id = some pid ∧
        ∀ row ∈ db.runSteps, ¬(Int.ofNat row.id = pid ∧ row.testRunId = id)) :
    ∃ run' steps' db',
      updateTestRun db id { status := st, steps := some (ps1 ++ p :: ps2) } now
        = (.success run' steps', db')
      ∧ db'.runSteps = applyPatches id (ps1 ++ ps2) db.runSteps := by
  have hbad1 : p.id = none ∨ ∃ pid, p.id = some pid ∧
      ∀ row ∈ applyPatches id ps1 db.runSteps,
        ¬(Int.ofNat row.id = pid ∧ row.testRunId = id) := by
    rcases hbad with h | ⟨pid, hp, hnone⟩
    · exact Or.inl h
    · refine Or.inr ⟨pid, hp, ?_⟩
      intro row' hrow' hcon
      have hmem : (row'.id, row'.testRunId)
          ∈ (applyPatches id ps1 db.runSteps).map (fun row => (row.id, row.testRunId)) :=
        List.mem_map_of_mem _ hrow'
      rw [applyPatches_ids] at hmem
      obtain ⟨row, hrow, heq⟩ := List.mem_map.mp hmem
      have h1 : row.id = row'.id := congrArg Prod.fst heq
      have h2 : row.testRunId = row'.testRunId := congrArg Prod.snd heq
      exact hnone row hrow ⟨by rw [h1]; exact hcon.1, by rw [h2]; exact hcon.2⟩
  have key : applyPatches id (ps1 ++ p :: ps2) db.runSteps
      = applyPatches id (ps1 ++ ps2) db.runSteps := by
    rw [applyPatches_append, applyPatches_append]
    show applyPatches id ps2 (applyOnePatch id (applyPatches id ps1 db.runSteps) p) = _
    rw [applyOnePatch_no_match id _ p hbad1]
  exact ⟨_, _, _,
    updateTestRun_unlocked db id r st (ps1 ++ p :: ps2) now hfind hul hvs, key⟩

theorem C7_stale_step_patch_ignored_witness :
    ∃ run' steps' db',
      updateTestRun { wDb with runs := [{ wRun with status := "in_progress" }] } 1
          { status := none,
            steps := some ([wPatch] ++
              { id := some 99, actualResults := some "stale", actualResultAttachments := none,
                checked := none, stepStatus := none } :: []) } 9
        = (.success run' steps', db')
      ∧ db'.runSteps = applyPatches 1 ([wPatch] ++ [])
          { wDb with runs := [{ wRun with status := "in_progress" }] }.runSteps :=
  C7_stale_step_patch_ignored { wDb with runs := [{ wRun with status := "in_progress" }] }
    1 { wRun with status := "in_progress" } [wPatch] []
    { id := some 99, actualResults := some "stale", actualResultAttachments := none,
      checked := none, stepStatus := none } none 9 rfl (by decide) rfl
    (Or.inr ⟨99, rfl, by decide⟩)

/-- C9: deleting a project that still owns a test case is a 409 conflict with
the project untouched; deleting one that owns none is a 204 that removes it;
deleting a nonexistent project id is a 404. -/
theorem C9_project_delete_guard (db : Db) (id : Nat) :
    (∀ p, db.projects.find? (fun q => q.id == id) = some p →
      (db.testCases.any (fun tc => tc.projectId == id) = true →
        deleteProject db id = (.conflict, db)
        ∧ DeleteProjectResult.httpCode .conflict = 409)
      ∧ (db.testCases.any (fun tc => tc.projectId == id) = false →
        (deleteProject db id).1 = .deleted
        ∧ DeleteProjectResult.httpCode .deleted = 204
        ∧ (deleteProject db id).2.projects.find? (fun q => q.id == id) = none))
    ∧ (db.projects.find? (fun q => q.id == id) = none →
      deleteProject db id = (.notFound, db)
      ∧ DeleteProjectResult.httpCode .notFound = 404) := by
  constructor
  · intro p hp
    constructor
    · intro hany
      exact ⟨by simp only [deleteProject, hp, hany, if_true], rfl⟩
    · intro hnone
      refine ⟨?_, rfl, ?_⟩
      · simp only [deleteProject, hp, hnone, Bool.false_eq_true, if_false]
      · simp only [deleteProject, hp, hnone, Bool.false_eq_true, if_false]
        rw [List.find?_eq_none]
        intro x hx
        have hxf := (List.mem_filter.mp hx).2
        simp only [Bool.not_eq_true'] at hxf
        simp [hxf]
  · intro hnone
    exact ⟨by simp only [deleteProject, hnone], rfl⟩

theorem C9_project_delete_guard_witness :
    (deleteProject w9Db 1 = (.conflict, w9Db)
      ∧ DeleteProjectResult.httpCode .conflict = 409)
    ∧ ((deleteProject w9Db 2).1 = .deleted
      ∧ DeleteProjectResult.httpCode .deleted = 204
      ∧ (deleteProject w9Db 2).2.projects.find? (fun q => q.id == 2) = none)
    ∧ (deleteProject w9Db 3 = (.notFound, w9Db)
      ∧ DeleteProjectResult.httpCode .notFound = 404) :=
  ⟨((C9_project_delete_guard w9Db 1).1 { id := 1, name := "P1" } rfl).1 (by decide),
   ((C9_project_delete_guard w9Db 2).1 { id := 2, name := "P2" } rfl).2 (by decide),
   (C9_project_delete_guard w9Db 3).2 rfl⟩

/-- C10: the attachment DELETE endpoint rejects an empty id or one containing
`/` or `..` with a 400 and no filesystem change; with neither `<id>.png` nor
`<id>.jpg` stored it is a 404 with no change; and any file it ever removes is
named `<id>.png` or `<id>.jpg` for a slash-free id. -/
theorem C10_attachment_delete_path_confined (db : Db) (id : String) :
    ((id = "" ∨ strContainsSub id "/" = true ∨ strContainsSub id ".." = true) →
      deleteAttachment db id = (.invalidId, db)
      ∧ DeleteAttachmentResult.httpCode .invalidId = 400)
    ∧ ((id ≠ "" ∧ strContainsSub id "/" = false ∧ strContainsSub id ".." = false) →
      (id ++ ".png") ∉ db.files → (id ++ ".jpg") ∉ db.files →
      deleteAttachment db id = (.notFound, db)
      ∧ DeleteAttachmentResult.httpCode .notFound = 404)
    ∧ (∀ res db', deleteAttachment db id = (res, db') →
        ∀ f, f ∈ db.files → f ∉ db'.files →
          strContainsSub id "/" = false ∧ (f = id ++ ".png" ∨ f = id ++ ".jpg")) := by
  refine ⟨?_, ?_, ?_⟩
  · intro h
    refine ⟨?_, rfl⟩
    have hc : (id = "" || strContainsSub id "/" || strContainsSub id "..") = true := by
      rcases h with h | h | h <;> simp [h]
    simp only [deleteAttachment]
    rw [if_pos hc]
  · rintro ⟨h1, h2, h3⟩ hpng hjpg
    refine ⟨?_, rfl⟩
    have hc : ¬((id = "" || strContainsSub id "/" || strContainsSub id "..") = true) := by
      simp [h1, h2, h3]
    simp only [deleteAttachment]
    rw [if_neg hc, if_neg hpng, if_neg hjpg]
  · intro res db' h f hf hnf
    by_cases hg : (id = "" || strContainsSub id "/" || strContainsSub id "..") = true
    · rw [deleteAttachment, if_pos hg] at h
      injection h with h1 h2
      subst h2
      exact absurd hf hnf
    · have hslash : strContainsSub id "/" = false := by
        simp only [Bool.or_eq_true, decide_eq_true_eq, not_or, Bool.not_eq_true] at hg
        exact hg.1.2
      refine ⟨hslash, ?_⟩
      rw [deleteAttachment, if_neg hg] at h
      by_cases hp : (id ++ ".png") ∈ db.files
      · rw [if_pos hp] at h
        injection h with h1 h2
        subst h2
        by_contra hne
        rw [not_or] at hne
        exact hnf (List.mem_filter.mpr ⟨hf, by simp [hne.1]⟩)
      · rw [if_neg hp] at h
        by_cases hj : (id ++ ".jpg") ∈ db.files
        · rw [if_pos hj] at h
          injection h with h1 h2
          subst h2
          by_contra hne
          rw [not_or] at hne
          exact hnf (List.mem_filter.mpr ⟨hf, by simp [hne.2]⟩)
        · rw [if_neg hj] at h
          injection h with h1 h2
          subst h2
          exact absurd hf hnf

theorem C10_attachment_delete_path_confined_witness :
    (deleteAttachment wFilesDb "x/../y" = (.invalidId, wFilesDb)
      ∧ DeleteAttachmentResult.httpCode .invalidId = 400)
    ∧ (deleteAttachment wFilesDb "zz" = (.notFound, wFilesDb)
      ∧ DeleteAttachmentResult.httpCode .notFound = 404)
    ∧ (strContainsSub "aa" "/" = false
      ∧ ("aa.png" = "aa" ++ ".png" ∨ "aa.png" = "aa" ++ ".jpg")) :=
  ⟨(C10_attachment_delete_path_confined wFilesDb "x/../y").1 (Or.inr (Or.inl (by decide))),
   (C10_attachment_delete_path_confined wFilesDb "zz").2.1
     ⟨by decide, by decide, by decide⟩ (by decide) (by decide),
   (C10_attachment_delete_path_confined wFilesDb "aa").2.2 _ _ rfl "aa.png"
     (by decide) (by decide)⟩

/-- C8 counterexample: with a source case of two steps, a persistence failure
while inserting the second copied step leaves the run row stored with only one
step — a partial run remains, contradicting the claimed atomicity. -/
theorem C8_counterexample_partial_run_persists :
    (createTestRunF (fun _ => "u0") (some 1) c8Db
        { name := some "Run", testCaseId := some 1 } 5).1 = .serverError
    ∧ ((createTestRunF (fun _ => "u0") (some 1) c8Db
        { name := some "Run", testCaseId := some 1 } 5).2.runs.map (fun r => r.id)) = [1]
    ∧ ((createTestRunF (fun _ => "u0") (some 1) c8Db
        { name := some "Run", testCaseId := some 1 } 5).2.runSteps.filter
          (fun s => s.testRunId == 1)).length = 1
    ∧ (c8Db.testCaseSteps.filter (fun s => s.testCaseId == 1)).length = 2 := by
  decide

theorem insertByPos_length {α : Type} (pos : α → Nat) (s : α) (l : List α) :
    (insertByPos pos s l).length = l.length + 1 := by
  induction l with
  | nil => rfl
  | cons t ts ih =>
    simp only [insertByPos]
    split
    · simp
    · simp [ih]

theorem sortByPos_length {α : Type} (pos : α → Nat) (l : List α) :
    (sortByPos pos l).length = l.length := by
  induction l with
  | nil => rfl
  | cons s ss ih => simp [sortByPos, insertByPos_length, ih]

theorem insertRunStepsF_none_spec (uuids : Nat → String) (runId : Nat)
    (steps : List TestCaseStepRow) : ∀ (idx nextId k : Nat) (files : List String),
    (insertRunStepsF uuids none runId steps idx nextId k files).failed = false
    ∧ List.Forall₂ (fun (ns : TestRunStepRow) (ss : TestCaseStepRow) =>
        ns.testRunId = runId ∧ ns.position = ss.position
        ∧ ns.stepDescription = ss.stepDescription
        ∧ ns.expectedResults = ss.expectedResults
        ∧ ns.actualResults = "" ∧ ns.actualResultAttachments = []
        ∧ ns.checked = false ∧ ns.stepStatus = "not_run")
      (insertRunStepsF uuids none runId steps idx nextId k files).rows steps := by
  induction steps with
  | nil =>
    intro idx nextId k files
    exact ⟨rfl, List.Forall₂.nil⟩
  | cons step rest ih =>
    intro idx nextId k files
    have hne : ¬((none : Option Nat) = some idx) := by simp
    simp only [insertRunStepsF, if_neg hne]
    exact ⟨(ih _ _ _ _).1,
      List.Forall₂.cons ⟨rfl, rfl, rfl, rfl, rfl, rfl, rfl, rfl⟩ (ih _ _ _ _).2⟩

theorem forall₂_exists_of_mem_left {α β : Type} {R : α → β → Prop}
    {l1 : List α} {l2 : List β}
    (h : List.Forall₂ R l1 l2) : ∀ a ∈ l1, ∃ b, R a b := by
  induction h with
  | nil => intro a ha; cases ha
  | cons hR _ ih =>
    intro a ha
    rcases List.mem_cons.mp ha with rfl | ha'
    · exact ⟨_, hR⟩
    · exact ih a ha'

/-- C4: creating a run from an existing case with a valid name yields a
`ready_to_test` run carrying the case's id and name, with exactly as many
`TestRunStep` rows as the case has steps, in position order, each freshly
initialised (`actualResults = ''`, no result attachments, unchecked,
`stepStatus = 'not_run'`). -/
theorem C4_create_run_snapshot (uuids : Nat → String) (db : Db) (nm : String)
    (tcId : Int) (tc : TestCaseRow) (now : Nat)
    (hname : ¬(jsTrim nm = ""))
    (hlen : (jsTrim nm).length ≤ NAME_MAX_LENGTH)
    (hpos : 1 ≤ tcId)
    (htc : db.testCases.find? (fun c => Int.ofNat c.id == tcId) = some tc)
    (hfresh : ∀ s ∈ db.runSteps, s.testRunId ≠ db.nextRunId) :
    ∃ run db',
      createTestRun uuids db { name := some nm, testCaseId := some tcId } now
        = (.created run, db')
      ∧ run.status = "ready_to_test"
      ∧ run.sourceTestCaseId = some tc.id
      ∧ run.sourceTestCaseName = tc.name
      ∧ (db'.runSteps.filter (fun s => s.testRunId == run.id)).length
          = (db.testCaseSteps.filter (fun s => s.testCaseId == tc.id)).length
      ∧ List.Forall₂ (fun (ns : TestRunStepRow) (ss : TestCaseStepRow) =>
          ns.position = ss.position ∧ ns.stepDescription = ss.stepDescription
          ∧ ns.expectedResults = ss.expectedResults ∧ ns.actualResults = ""
          ∧ ns.actualResultAttachments = [] ∧ ns.checked = false
          ∧ ns.stepStatus = "not_run")
        (db'.runSteps.filter (fun s => s.testRunId == run.id))
        (sortByPos (fun s => s.position)
          (db.testCaseSteps.filter (fun s => s.testCaseId == tc.id))) := by
  have h2 : ¬((jsTrim nm).length > NAME_MAX_LENGTH) := Nat.not_lt.mpr hlen
  have h3 : ¬(tcId < 1) := not_lt.mpr hpos
  obtain ⟨hfail, hforall⟩ := insertRunStepsF_none_spec uuids db.nextRunId
    (sortByPos (fun s => s.position)
      (db.testCaseSteps.filter (fun s => s.testCaseId == tc.id)))
    0 db.nextRunStepId 0 db.files
  have hall : ∀ ns ∈ (insertRunStepsF uuids none db.nextRunId
      (sortByPos (fun s => s.position)
        (db.testCaseSteps.filter (fun s => s.testCaseId == tc.id)))
      0 db.nextRunStepId 0 db.files).rows, (ns.testRunId == db.nextRunId) = true := by
    intro ns hns
    obtain ⟨ss, hR⟩ := forall₂_exists_of_mem_left hforall ns hns
    simp [hR.1]
  have hfilter : ∀ rows : List TestRunStepRow,
      (∀ ns ∈ rows, (ns.testRunId == db.nextRunId) = true) →
      (db.runSteps ++ rows).filter (fun s => s.testRunId == db.nextRunId) = rows := by
    intro rows hrows
    rw [List.filter_append, List.filter_eq_nil_iff.mpr, List.filter_eq_self.mpr hrows,
      List.nil_append]
    intro s hs
    simp [hfresh s hs]
  simp only [createTestRun, createTestRunF, if_neg hname, if_neg h2, if_neg h3, htc,
    hfail, Bool.false_eq_true, if_false]
  refine ⟨_, _, rfl, rfl, rfl, rfl, ?_, ?_⟩
  · rw [hfilter _ hall, List.Forall₂.length_eq hforall, sortByPos_length]
  · rw [hfilter _ hall]
    exact hforall.imp (fun a b hR => hR.2)

theorem C4_create_run_snapshot_witness :
    ∃ run db',
      createTestRun (fun _ => "u0") c8Db { name := some "Run1", testCaseId := some 1 } 5
        = (.created run, db')
      ∧ run.status = "ready_to_test"
      ∧ run.sourceTestCaseId = some 1
      ∧ run.sourceTestCaseName = "Login"
      ∧ (db'.runSteps.filter (fun s => s.testRunId == run.id)).length
          = (c8Db.testCaseSteps.filter (fun s => s.testCaseId == 1)).length
      ∧ List.Forall₂ (fun (ns : TestRunStepRow) (ss : TestCaseStepRow) =>
          ns.position = ss.position ∧ ns.stepDescription = ss.stepDescription
          ∧ ns.expectedResults = ss.expectedResults ∧ ns.actualResults = ""
          ∧ ns.actualResultAttachments = [] ∧ ns.checked = false
          ∧ ns.stepStatus = "not_run")
        (db'.runSteps.filter (fun s => s.testRunId == run.id))
        (sortByPos (fun s => s.position)
          (c8Db.testCaseSteps.filter (fun s => s.testCaseId == 1))) :=
  C4_create_run_snapshot (fun _ => "u0") c8Db "Run1" 1
    { id := 1, name := "Login", projectId := 1 } 5
    (by decide) (by decide) (by decide) rfl (by simp [c8Db])

theorem insertRunStepsF_fail_spec (uuids : Nat → String) (runId i : Nat)
    (steps : List TestCaseStepRow) : ∀ (idx nextId k : Nat) (files : List String),
    idx ≤ i → i - idx < steps.length →
    (insertRunStepsF uuids (some i) runId steps idx nextId k files).failed = true
    ∧ (insertRunStepsF uuids (some i) runId steps idx nextId k files).rows.length
        = i - idx
    ∧ ∀ ns ∈ (insertRunStepsF uuids (some i) runId steps idx nextId k files).rows,
        ns.testRunId = runId := by
  induction steps with
  | nil =>
    intro idx nextId k files hle hlt
    simp at hlt
  | cons step rest ih =>
    intro idx nextId k files hle hlt
    by_cases hidx : i = idx
    · subst hidx
      simp only [insertRunStepsF, if_pos rfl]
      exact ⟨rfl, by simp, by simp⟩
    · have hlt1 : idx < i := Nat.lt_of_le_of_ne hle (fun h => hidx h.symm)
      have hne : ¬((some i : Option Nat) = some idx) := by simpa using hidx
      simp only [insertRunStepsF, if_neg hne]
      obtain ⟨hf, hlenr, hmem⟩ := ih (idx + 1) (nextId + 1)
        (copyStepAttachments uuids step.attachments k files).nextUuid
        (copyStepAttachments uuids step.attachments k files).files
        hlt1 (by simp at hlt; omega)
      refine ⟨hf, ?_, ?_⟩
      · simp only [List.length_cons, hlenr]
        omega
      · intro ns hns
        rcases List.mem_cons.mp hns with rfl | hns'
        · rfl
        · exact hmem ns hns'

/-- C8 amended: a persistence failure during `POST /service/test-runs` returns
500 but does not abort already-committed inserts: when the INSERT of the i-th
copied step throws (with the source case having more than i steps), the run
row stays stored and exactly the first i copied steps remain with it. -/
theorem C8_amended_step_insert_failure_partial (uuids : Nat → String) (db : Db)
    (nm : String) (tcId : Int) (tc : TestCaseRow) (now i : Nat)
    (hname : ¬(jsTrim nm = ""))
    (hlen : (jsTrim nm).length ≤ NAME_MAX_LENGTH)
    (hpos : 1 ≤ tcId)
    (htc : db.testCases.find? (fun c => Int.ofNat c.id == tcId) = some tc)
    (hfresh : ∀ s ∈ db.runSteps, s.testRunId ≠ db.nextRunId)
    (hi : i < (db.testCaseSteps.filter (fun s => s.testCaseId == tc.id)).length) :
    ∃ run db',
      createTestRunF uuids (some i) db { name := some nm, testCaseId := some tcId } now
        = (.serverError, db')
      ∧ CreateRunResult.httpCode .serverError = 500
      ∧ run.id = db.nextRunId
      ∧ run ∈ db'.runs
      ∧ (db'.runSteps.filter (fun s => s.testRunId == run.id)).length = i := by
  have h2 : ¬((jsTrim nm).length > NAME_MAX_LENGTH) := Nat.not_lt.mpr hlen
  have h3 : ¬(tcId < 1) := not_lt.mpr hpos
  obtain ⟨hfail, hlenr, hmem⟩ := insertRunStepsF_fail_spec uuids db.nextRunId i
    (sortByPos (fun s => s.position)
      (db.testCaseSteps.filter (fun s => s.testCaseId == tc.id)))
    0 db.nextRunStepId 0 db.files (Nat.zero_le i)
    (by rw [sortByPos_length]; simpa using hi)
  have hall : ∀ ns ∈ (insertRunStepsF uuids (some i) db.nextRunId
      (sortByPos (fun s => s.position)
        (db.testCaseSteps.filter (fun s => s.testCaseId == tc.id)))
      0 db.nextRunStepId 0 db.files).rows, (ns.testRunId == db.nextRunId) = true := by
    intro ns hns
    simp [hmem ns hns]
  have hfilter : (db.runSteps ++ (insertRunStepsF uuids (some i) db.nextRunId
      (sortByPos (fun s => s.position)
        (db.testCaseSteps.filter (fun s => s.testCaseId == tc.id)))
      0 db.nextRunStepId 0 db.files).rows).filter
        (fun s => s.testRunId == db.nextRunId)
      = (insertRunStepsF uuids (some i) db.nextRunId
          (sortByPos (fun s => s.position)
            (db.testCaseSteps.filter (fun s => s.testCaseId == tc.id)))
          0 db.nextRunStepId 0 db.files).rows := by
    rw [List.filter_append, List.filter_eq_nil_iff.mpr, List.filter_eq_self.mpr hall,
      List.nil_append]
    intro s hs
    simp [hfresh s hs]
  simp only [createTestRunF, if_neg hname, if_neg h2, if_neg h3, htc, hfail,
    eq_self_iff_true, if_true]
  refine ⟨⟨db.nextRunId, jsTrim nm, "ready_to_test", some tc.projectId, some tc.id,
    tc.name, now, now⟩, _, rfl, rfl, rfl, ?_, ?_⟩
  · exact List.mem_append_right _ (List.mem_singleton_self _)
  · rw [hfilter, hlenr]
    omega

theorem C8_amended_step_insert_failure_partial_witness :
    ∃ run db',
      createTestRunF (fun _ => "u0") (some 1) c8Db
          { name := some "Run", testCaseId := some 1 } 5
        = (.serverError, db')
      ∧ CreateRunResult.httpCode .serverError = 500
      ∧ run.id = c8Db.nextRunId
      ∧ run ∈ db'.runs
      ∧ (db'.runSteps.filter (fun s => s.testRunId == run.id)).length = 1 :=
  C8_amended_step_insert_failure_partial (fun _ => "u0") c8Db "Run" 1
    { id := 1, name := "Login", projectId := 1 } 5 1
    (by decide) (by decide) (by decide) rfl (by simp [c8Db]) (by decide)

theorem rawExt_cases (att : RawAttachment) :
    rawExt att = ".png" ∨ rawExt att = ".jpg" := by
  unfold rawExt
  split
  · exact Or.inl rfl
  · exact Or.inr rfl

theorem ext_append_inj {a b ea eb : String}
    (hea : ea = ".png" ∨ ea = ".jpg") (heb : eb = ".png" ∨ eb = ".jpg")
    (h : a ++ ea = b ++ eb) : a = b ∧ ea = eb := by
  have hd : a.data ++ ea.data = b.data ++ eb.data := by
    rw [← String.data_append, ← String.data_append, h]
  have hlen : ea.data.length = eb.data.length := by
    rcases hea with h1 | h1 <;> rcases heb with h2 | h2 <;> subst h1 <;> subst h2 <;> decide
  obtain ⟨h1, h2⟩ := List.append_inj' hd hlen
  exact ⟨String.ext h1, String.ext h2⟩

theorem mem_insertByPos {α : Type} (pos : α → Nat) (s x : α) (l : List α) :
    x ∈ insertByPos pos s l ↔ x = s ∨ x ∈ l := by
  induction l with
  | nil => simp [insertByPos]
  | cons t ts ih =>
    simp only [insertByPos]
    split
    · simp [List.mem_cons]
    · simp only [List.mem_cons, ih]
      tauto

theorem mem_sortByPos {α : Type} (pos : α → Nat) (x : α) (l : List α) :
    x ∈ sortByPos pos l ↔ x ∈ l := by
  induction l with
  | nil => exact Iff.rfl
  | cons s ss ih => simp [sortByPos, mem_insertByPos, ih, List.mem_cons]

theorem srcFilePresentB_stable (uuids : Nat → String) (S : List String)
    (hu : ∀ (j : Nat), ∀ a ∈ S, uuids j ≠ a)
    (files files' : List String)
    (hsup : ∀ f ∈ files, f ∈ files')
    (hchar : ∀ f ∈ files', f ∈ files ∨ ∃ j e, (e = ".png" ∨ e = ".jpg") ∧ f = uuids j ++ e)
    (a : RawAttachment) (ha : ∀ aid, a.id = some aid → aid ∈ S) :
    srcFilePresentB files' a = srcFilePresentB files a := by
  cases hid : a.id with
  | none => simp [srcFilePresentB, hid]
  | some aid =>
    by_cases hemp : aid = ""
    · simp [srcFilePresentB, hid, hemp]
    · have haS := ha aid hid
      have hiff : (aid ++ rawExt a) ∈ files' ↔ (aid ++ rawExt a) ∈ files := by
        constructor
        · intro h
          rcases hchar _ h with h | ⟨j, e, he, heq⟩
          · exact h
          · obtain ⟨h1, -⟩ := ext_append_inj (rawExt_cases a) he heq
            exact absurd h1.symm (hu j aid haS)
        · exact hsup _
      simp [srcFilePresentB, hid, hiff]

theorem forall₂_imp_mem {α β : Type} {R S : α → β → Prop} {l1 : List α} {l2 : List β}
    (h : List.Forall₂ R l1 l2)
    (himp : ∀ a b, b ∈ l2 → R a b → S a b) : List.Forall₂ S l1 l2 := by
  induction h with
  | nil => exact .nil
  | cons hR hrest ih =>
    exact .cons (himp _ _ (List.mem_cons_self _ _) hR)
      (ih fun a b hb => himp a b (List.mem_cons_of_mem _ hb))

theorem copyStepAttachments_spec (uuids : Nat → String) (S : List String)
    (hu : ∀ (j : Nat), ∀ a ∈ S, uuids j ≠ a)
    (atts : List RawAttachment) : ∀ (k : Nat) (files : List String),
    (∀ a : String, (∃ att ∈ atts, att.id = some a) → a ∈ S) →
    (∀ f ∈ files, f ∈ (copyStepAttachments uuids atts k files).files)
    ∧ (∀ f ∈ (copyStepAttachments uuids atts k files).files,
        f ∈ files ∨ ∃ j e, (e = ".png" ∨ e = ".jpg") ∧ f = uuids j ++ e)
    ∧ (∀ c ∈ (copyStepAttachments uuids atts k files).copied,
        (∃ j, c.id = uuids j)
        ∧ (c.id ++ ".png" ∈ (copyStepAttachments uuids atts k files).files
           ∨ c.id ++ ".jpg" ∈ (copyStepAttachments uuids atts k files).files))
    ∧ (copyStepAttachments uuids atts k files).copied.length
        = (atts.filter (srcFilePresentB files)).length := by
  induction atts with
  | nil =>
    intro k files _
    exact ⟨fun f hf => hf, fun f hf => Or.inl hf,
      fun c hc => absurd hc (List.not_mem_nil c), rfl⟩
  | cons att rest ih =>
    intro k files hsub
    have hsub' : ∀ a : String, (∃ att' ∈ rest, att'.id = some a) → a ∈ S :=
      fun a ⟨att', hmem, hids⟩ => hsub a ⟨att', List.mem_cons_of_mem _ hmem, hids⟩
    cases hid : att.id with
    | none =>
      have hskip : srcFilePresentB files att = false := by simp [srcFilePresentB, hid]
      simp only [copyStepAttachments, hid, List.filter_cons, hskip, Bool.false_eq_true,
        if_false]
      exact ih k files hsub'
    | some aid =>
      by_cases hemp : aid = ""
      · have hskip : srcFilePresentB files att = false := by
          simp [srcFilePresentB, hid, hemp]
        simp only [copyStepAttachments, hid, if_pos hemp, List.filter_cons, hskip,
          Bool.false_eq_true, if_false]
        exact ih k files hsub'
      · by_cases hex : (aid ++ rawExt att) ∈ files
        · have hkeep : srcFilePresentB files att = true := by
            simp [srcFilePresentB, hid, hemp, hex]
          have haidS : aid ∈ S := hsub aid ⟨att, List.mem_cons_self _ _, hid⟩
          obtain ⟨ihmono, ihnew, ihcopied, ihlen⟩ :=
            ih (k + 1) (files ++ [uuids k ++ rawExt att]) hsub'
          simp only [copyStepAttachments, hid, if_neg hemp, if_pos hex,
            List.filter_cons, hkeep, if_true]
          refine ⟨?_, ?_, ?_, ?_⟩
          · intro f hf
            exact ihmono f (List.mem_append_left _ hf)
          · intro f hf
            rcases ihnew f hf with hf' | hnew
            · rcases List.mem_append.mp hf' with hf'' | hf''
              · exact Or.inl hf''
              · rw [List.mem_singleton.mp hf'']
                exact Or.inr ⟨k, rawExt att, rawExt_cases att, rfl⟩
            · exact Or.inr hnew
          · intro c hc
            rcases List.mem_cons.mp hc with rfl | hc'
            · refine ⟨⟨k, rfl⟩, ?_⟩
              have hmem : uuids k ++ rawExt att
                  ∈ (copyStepAttachments uuids rest (k + 1)
                      (files ++ [uuids k ++ rawExt att])).files :=
                ihmono _ (List.mem_append_right _ (List.mem_singleton_self _))
              rcases rawExt_cases att with he | he
              · rw [he] at hmem ⊢
                exact Or.inl hmem
              · rw [he] at hmem ⊢
                exact Or.inr hmem
            · exact ihcopied c hc'
          · simp only [List.length_cons, ihlen, Nat.succ_eq_add_one]
            have hcongr : rest.filter (srcFilePresentB (files ++ [uuids k ++ rawExt att]))
                = rest.filter (srcFilePresentB files) := by
              apply List.filter_congr
              intro a ha
              apply srcFilePresentB_stable uuids S hu
              · exact fun f hf => List.mem_append_left _ hf
              · intro f hf
                rcases List.mem_append.mp hf with hf' | hf'
                · exact Or.inl hf'
                · rw [List.mem_singleton.mp hf']
                  exact Or.inr ⟨k, rawExt att, rawExt_cases att, rfl⟩
              · exact fun aid' hid' => hsub' aid' ⟨a, ha, hid'⟩
            rw [hcongr]
        · have hskip : srcFilePresentB files att = false := by
            simp [srcFilePresentB, hid, hemp, hex]
          simp only [copyStepAttachments, hid, if_neg hemp, if_neg hex, List.filter_cons,
            hskip, Bool.false_eq_true, if_false]
          exact ih k files hsub'

theorem deleteAttachment_keeps (db : Db) (a f : String)
    (hf : f ∈ db.files) (hpng : f ≠ a ++ ".png") (hjpg : f ≠ a ++ ".jpg") :
    f ∈ (deleteAttachment db a).2.files := by
  unfold deleteAttachment
  split
  · exact hf
  · split
    · exact List.mem_filter.mpr ⟨hf, by simp [hpng]⟩
    · split
      · exact List.mem_filter.mpr ⟨hf, by simp [hjpg]⟩
      · exact hf

theorem insertRunStepsF_none_atts_spec (uuids : Nat → String) (S : List String)
    (hu : ∀ (j : Nat), ∀ a ∈ S, uuids j ≠ a) (runId : Nat)
    (steps : List TestCaseStepRow) : ∀ (idx nextId k : Nat) (files : List String),
    (∀ a : String, (∃ ss ∈ steps, ∃ att ∈ ss.attachments, att.id = some a) → a ∈ S) →
    (∀ f ∈ files, f ∈ (insertRunStepsF uuids none runId steps idx nextId k files).files)
    ∧ (∀ f ∈ (insertRunStepsF uuids none runId steps idx nextId k files).files,
        f ∈ files ∨ ∃ j e, (e = ".png" ∨ e = ".jpg") ∧ f = uuids j ++ e)
    ∧ (∀ ns ∈ (insertRunStepsF uuids none runId steps idx nextId k files).rows,
        ∀ c ∈ ns.attachments,
          (∃ j, c.id = uuids j)
          ∧ (c.id ++ ".png"
              ∈ (insertRunStepsF uuids none runId steps idx nextId k files).files
            ∨ c.id ++ ".jpg"
              ∈ (insertRunStepsF uuids none runId steps idx nextId k files).files))
    ∧ List.Forall₂ (fun (ns : TestRunStepRow) (ss : TestCaseStepRow) =>
        ns.attachments.length = (ss.attachments.filter (srcFilePresentB files)).length)
      (insertRunStepsF uuids none runId steps idx nextId k files).rows steps := by
  induction steps with
  | nil =>
    intro idx nextId k files _
    exact ⟨fun f hf => hf, fun f hf => Or.inl hf,
      fun ns hns => absurd hns (List.not_mem_nil ns), List.Forall₂.nil⟩
  | cons step rest ih =>
    intro idx nextId k files hsub
    have hne : ¬((none : Option Nat) = some idx) := by simp
    have hsubatt : ∀ a : String, (∃ att ∈ step.attachments, att.id = some a) → a ∈ S :=
      fun a ⟨att, hmem, hids⟩ => hsub a ⟨step, List.mem_cons_self _ _, att, hmem, hids⟩
    have hsubrest : ∀ a : String,
        (∃ ss ∈ rest, ∃ att ∈ ss.attachments, att.id = some a) → a ∈ S :=
      fun a ⟨ss, hmem, att, hatt, hids⟩ =>
        hsub a ⟨ss, List.mem_cons_of_mem _ hmem, att, hatt, hids⟩
    obtain ⟨cmono, cnew, ccop, clen⟩ :=
      copyStepAttachments_spec uuids S hu step.attachments k files hsubatt
    obtain ⟨imono, inew, irows, iforall⟩ := ih (idx + 1) (nextId + 1)
      (copyStepAttachments uuids step.attachments k files).nextUuid
      (copyStepAttachments uuids step.attachments k files).files hsubrest
    simp only [insertRunStepsF, if_neg hne]
    refine ⟨?_, ?_, ?_, ?_⟩
    · exact fun f hf => imono f (cmono f hf)
    · intro f hf
      rcases inew f hf with hf' | hnew
      · exact cnew f hf'
      · exact Or.inr hnew
    · intro ns hns
      rcases List.mem_cons.mp hns with rfl | hns'
      · intro c hc
        obtain ⟨hcid, hfile⟩ := ccop c hc
        refine ⟨hcid, ?_⟩
        rcases hfile with hfile | hfile
        · exact Or.inl (imono _ hfile)
        · exact Or.inr (imono _ hfile)
      · exact irows ns hns'
    · refine List.Forall₂.cons clen ?_
      refine forall₂_imp_mem iforall ?_
      intro ns ss hss hlen2
      rw [hlen2]
      congr 1
      apply List.filter_congr
      intro a ha
      exact srcFilePresentB_stable uuids S hu files _ cmono cnew a
        (fun aid hid => hsubrest aid ⟨ss, hss, a, ha, hid⟩)

/-- C5: during run creation every source attachment whose backing file exists
is copied under a freshly generated identifier different from every source
attachment id; the new identifier is what the run step records and its backing
file exists, so deleting any source attachment afterwards leaves every
attachment of the already-created run backed; a source attachment whose
backing file is missing is skipped (per step, exactly the present-and-named
source attachments are copied) and creation still succeeds. -/
theorem C5_attachment_copy_on_create (uuids : Nat → String) (db : Db) (nm : String)
    (tcId : Int) (tc : TestCaseRow) (now : Nat)
    (hname : ¬(jsTrim nm = ""))
    (hlen : (jsTrim nm).length ≤ NAME_MAX_LENGTH)
    (hpos : 1 ≤ tcId)
    (htc : db.testCases.find? (fun c => Int.ofNat c.id == tcId) = some tc)
    (hfresh : ∀ s ∈ db.runSteps, s.testRunId ≠ db.nextRunId)
    (hu : ∀ (j : Nat), ∀ a ∈ caseAttachmentIds db tc.id, uuids j ≠ a) :
    ∃ run db',
      createTestRun uuids db { name := some nm, testCaseId := some tcId } now
        = (.created run, db')
      ∧ (∀ f ∈ db.files, f ∈ db'.files)
      ∧ (∀ ns ∈ db'.runSteps.filter (fun s => s.testRunId == run.id),
          ∀ c ∈ ns.attachments,
            (∃ j, c.id = uuids j)
            ∧ (∀ a ∈ caseAttachmentIds db tc.id, c.id ≠ a)
            ∧ (c.id ++ ".png" ∈ db'.files ∨ c.id ++ ".jpg" ∈ db'.files)
            ∧ (∀ a ∈ caseAttachmentIds db tc.id,
                c.id ++ ".png" ∈ (deleteAttachment db' a).2.files
                ∨ c.id ++ ".jpg" ∈ (deleteAttachment db' a).2.files))
      ∧ List.Forall₂ (fun (ns : TestRunStepRow) (ss : TestCaseStepRow) =>
          ns.attachments.length
            = (ss.attachments.filter (srcFilePresentB db.files)).length)
        (db'.runSteps.filter (fun s => s.testRunId == run.id))
        (sortByPos (fun s => s.position)
          (db.testCaseSteps.filter (fun s => s.testCaseId == tc.id))) := by
  have h2 : ¬((jsTrim nm).length > NAME_MAX_LENGTH) := Nat.not_lt.mpr hlen
  have h3 : ¬(tcId < 1) := not_lt.mpr hpos
  have hsubtop : ∀ a : String,
      (∃ ss ∈ sortByPos (fun s => s.position)
          (db.testCaseSteps.filter (fun s => s.testCaseId == tc.id)),
        ∃ att ∈ ss.attachments, att.id = some a) → a ∈ caseAttachmentIds db tc.id := by
    rintro a ⟨ss, hss, att, hatt, hid⟩
    rw [mem_sortByPos] at hss
    unfold caseAttachmentIds
    rw [List.mem_flatMap]
    exact ⟨ss, hss, List.mem_filterMap.mpr ⟨att, hatt, hid⟩⟩
  obtain ⟨hfail, hfields⟩ := insertRunStepsF_none_spec uuids db.nextRunId
    (sortByPos (fun s => s.position)
      (db.testCaseSteps.filter (fun s => s.testCaseId == tc.id)))
    0 db.nextRunStepId 0 db.files
  have hall : ∀ ns ∈ (insertRunStepsF uuids none db.nextRunId
      (sortByPos (fun s => s.position)
        (db.testCaseSteps.filter (fun s => s.testCaseId == tc.id)))
      0 db.nextRunStepId 0 db.files).rows, (ns.testRunId == db.nextRunId) = true := by
    intro ns hns
    obtain ⟨ss, hR⟩ := forall₂_exists_of_mem_left hfields ns hns
    simp [hR.1]
  have hfilter : (db.runSteps ++ (insertRunStepsF uuids none db.nextRunId
      (sortByPos (fun s => s.position)
        (db.testCaseSteps.filter (fun s => s.testCaseId == tc.id)))
      0 db.nextRunStepId 0 db.files).rows).filter
        (fun s => s.testRunId == db.nextRunId)
      = (insertRunStepsF uuids none db.nextRunId
          (sortByPos (fun s => s.position)
            (db.testCaseSteps.filter (fun s => s.testCaseId == tc.id)))
          0 db.nextRunStepId 0 db.files).rows := by
    rw [List.filter_append, List.filter_eq_nil_iff.mpr, List.filter_eq_self.mpr hall,
      List.nil_append]
    intro s hs
    simp [hfresh s hs]
  obtain ⟨imono, inew, irows, iforall⟩ := insertRunStepsF_none_atts_spec uuids
    (caseAttachmentIds db tc.id) hu db.nextRunId
    (sortByPos (fun s => s.position)
      (db.testCaseSteps.filter (fun s => s.testCaseId == tc.id)))
    0 db.nextRunStepId 0 db.files hsubtop
  simp only [createTestRun, createTestRunF, if_neg hname, if_neg h2, if_neg h3, htc,
    hfail, Bool.false_eq_true, if_false]
  refine ⟨_, _, rfl, ?_, ?_, ?_⟩
  · exact imono
  · intro ns hns c hc
    rw [hfilter] at hns
    obtain ⟨hcid, hfile⟩ := irows ns hns c hc
    refine ⟨hcid, ?_, hfile, ?_⟩
    · intro a ha
      obtain ⟨j, hj⟩ := hcid
      rw [hj]
      exact hu j a ha
    · intro a ha
      obtain ⟨j, hj⟩ := hcid
      rcases hfile with hf | hf
      · refine Or.inl (deleteAttachment_keeps _ a _ hf ?_ ?_)
        · intro heq
          obtain ⟨h1, -⟩ := ext_append_inj (Or.inl rfl) (Or.inl rfl) heq
          rw [hj] at h1
          exact hu j a ha h1
        · intro heq
          obtain ⟨-, h2⟩ := ext_append_inj (Or.inl rfl) (Or.inr rfl) heq
          exact absurd h2 (by decide)
      · refine Or.inr (deleteAttachment_keeps _ a _ hf ?_ ?_)
        · intro heq
          obtain ⟨-, h2⟩ := ext_append_inj (Or.inr rfl) (Or.inl rfl) heq
          exact absurd h2 (by decide)
        · intro heq
          obtain ⟨h1, -⟩ := ext_append_inj (Or.inr rfl) (Or.inr rfl) heq
          rw [hj] at h1
          exact hu j a ha h1
  · rw [hfilter]
    exact iforall

theorem C5_attachment_copy_on_create_witness :
    ∃ run db',
      createTestRun (fun _ => "u0") c5Db { name := some "Run1", testCaseId := some 1 } 5
        = (.created run, db')
      ∧ (∀ f ∈ c5Db.files, f ∈ db'.files)
      ∧ (∀ ns ∈ db'.runSteps.filter (fun s => s.testRunId == run.id),
          ∀ c ∈ ns.attachments,
            (∃ j, c.id = (fun _ : Nat => "u0") j)
            ∧ (∀ a ∈ caseAttachmentIds c5Db 1, c.id ≠ a)
            ∧ (c.id ++ ".png" ∈ db'.files ∨ c.id ++ ".jpg" ∈ db'.files)
            ∧ (∀ a ∈ caseAttachmentIds c5Db 1,
                c.id ++ ".png" ∈ (deleteAttachment db' a).2.files
                ∨ c.id ++ ".jpg" ∈ (deleteAttachment db' a).2.files))
      ∧ List.Forall₂ (fun (ns : TestRunStepRow) (ss : TestCaseStepRow) =>
          ns.attachments.length
            = (ss.attachments.filter (srcFilePresentB c5Db.files)).length)
        (db'.runSteps.filter (fun s => s.testRunId == run.id))
        (sortByPos (fun s => s.position)
          (c5Db.testCaseSteps.filter (fun s => s.testCaseId == 1))) :=
  C5_attachment_copy_on_create (fun _ => "u0") c5Db "Run1" 1
    { id := 1, name := "Login", projectId := 1 } 5
    (by decide) (by decide) (by decide) rfl (by simp [c5Db])
    (by
      intro j a ha
      have ha' : a ∈ ["a1", "a2"] := ha
      simp at ha'
      rcases ha' with rfl | rfl
      · exact (by decide : ("u0" : String) ≠ "a1")
      · exact (by decide : ("u0" : String) ≠ "a2"))

end TestLlama
